import Mathlib

/-!
Verification of the `grammar-rs` parsing core: a shallow embedding of the
winnow-based JSON value parser (`src/json.rs`) and of the NGINX combined
log-line parser (`src/nginx_log.rs`), with theorems settling the spec claims.

Modelling conventions, mirroring the source:
- the winnow stream `&mut &str` is modelled as a `List Char` cursor that every
  parser receives and returns; a parser result is `PResult`: success carries the
  value and the advanced cursor, a backtrack error carries the error kind
  (token/structural vs external-conversion, mirroring winnow's literal failures
  vs `parse_to` conversion failures) and the cursor as the failing parser left
  it, and `panic` models an abnormal Rust termination (an `unwrap` of an `Err`);
- Rust machine integers are `Nat` with the explicit bound checks that
  `str::parse::<iN/uN>` performs on a digit run (no sign is ever present in the
  runs handed to `parse_to` here, so only the upper bound matters);
- `f64` values produced by `parse_num` are modelled exactly, as a decimal
  mantissa/exponent pair `DecRat` (value `mant / 10 ^ exp`): every float the
  code builds comes from parsing a decimal literal `"<int>.<frac>"`, and
  distinct decimal values at issue in the claims round to distinct `f64`s, so
  the exact-decimal model preserves every comparison the claims make;
- `chrono::DateTime::parse_from_str` with the fixed format
  `%d/%b/%Y:%H:%M:%S %z` is modelled by `chronoParse`, validating the calendar
  fields and returning Unix seconds (leap-second inputs, `%S` = 60, are outside
  the model); `DateTime<Utc>` is its Unix-seconds value.
-/

namespace GrammarRs

/-- The winnow input stream `&str`, as the list of remaining characters. -/
abbrev Str : Type := List Char

/-- Failure kinds surfaced through winnow's error channel: `tok` for literal /
character-class mismatches, `conv` for `parse_to` conversion failures (winnow's
`Verify` / external error). Both travel the same `Result` channel in the code. -/
inductive ErrKind : Type where
  | tok : ErrKind
  | conv : ErrKind
deriving DecidableEq, Repr

/-- Result of running one winnow parser on a cursor: success with the advanced
cursor, a backtrack error with the cursor exactly as the failing parser left it
(winnow does not rewind on error; enclosing combinators restore checkpoints),
or a Rust panic. -/
inductive PResult (α : Type) : Type where
  | ok : α → Str → PResult α
  | err : ErrKind → Str → PResult α
  | panic : PResult α
deriving DecidableEq, Repr

/-- A winnow parser `FnMut(&mut &str) -> Result<α>`. -/
abbrev Parser (α : Type) : Type := Str → PResult α

/-- Result of a top-level entry point (`parse_json`, `parse_nginx_log`): the
remaining input is dropped, as the Rust functions return only the value. -/
inductive TopResult (α : Type) : Type where
  | ok : α → TopResult α
  | err : ErrKind → TopResult α
  | panic : TopResult α
deriving DecidableEq, Repr

/-- Sequencing of winnow parsers (the `?` operator on `parse_next` calls). -/
def pseq {α β : Type} (p : Parser α) (f : α → Parser β) : Parser β := fun s =>
  match p s with
  | .ok a r => f a r
  | .err k r => .err k r
  | .panic => .panic

/-- Map over a parser's output (winnow `Parser::map` / `value`). -/
def pmap {α β : Type} (p : Parser α) (f : α → β) : Parser β := fun s =>
  match p s with
  | .ok a r => .ok (f a) r
  | .err k r => .err k r
  | .panic => .panic

/-- A parser that consumes nothing and yields `a`. -/
def ppure {α : Type} (a : α) : Parser α := fun s => .ok a s

/-- Core of literal matching: strip the expected literal from the stream. -/
def litCore : Str → Str → Option Str
  | [], s => some s
  | _ :: _, [] => none
  | c :: cs, b :: bs => if c = b then litCore cs bs else none

/-- A winnow string/char literal (`"null"`, `'['`, ...): consumes it on
success, fails without consuming on mismatch. -/
def lit (l : Str) : Parser Unit := fun s =>
  match litCore l s with
  | some r => .ok () r
  | none => .err .tok s

/-- A single-character literal. -/
def chr (c : Char) : Parser Unit := lit [c]

/-- A literal alternative that yields the matched text (as winnow's `&str`
literals do inside `alt`). -/
def litTok (l : Str) : Parser Str := pmap (lit l) (fun _ => l)

/-- The winnow `opt` combinator: resets to the checkpoint on failure. -/
def popt {α : Type} (p : Parser α) : Parser (Option α) := fun s =>
  match p s with
  | .ok a r => .ok (some a) r
  | .err _ _ => .ok none s
  | .panic => .panic

/-- The winnow `alt` combinator: tries each branch from the same checkpoint,
commits to the first success, and reports the last branch's error if all fail. -/
def palt {α : Type} : List (Parser α) → Parser α
  | [] => fun s => .err .tok s
  | [p] => p
  | p :: ps => fun s =>
    match p s with
    | .ok a r => .ok a r
    | .err _ _ => palt ps s
    | .panic => .panic

/-- ASCII decimal digit test, winnow's `AsChar::is_dec_digit`
(= Rust `char::is_ascii_digit`). -/
def isDigitC (c : Char) : Bool := 48 ≤ c.toNat && c.toNat ≤ 57

/-- The winnow `digit1` parser: one or more ASCII digits; fails without
consuming when none are present. -/
def digit1 : Parser Str := fun s =>
  match s.takeWhile isDigitC with
  | [] => .err .tok s
  | ds => .ok ds (s.dropWhile isDigitC)

/-- Space or horizontal tab, the character class of winnow `space0`. -/
def isHSpace (c : Char) : Bool := c == ' ' || c == '\t'

/-- Space, tab, carriage return or newline, the class of winnow `multispace0`. -/
def isMulSpace (c : Char) : Bool := c == ' ' || c == '\t' || c == '\r' || c == '\n'

/-- The winnow `space0` parser: zero or more spaces/tabs, never fails. -/
def space0 : Parser Unit := fun s => .ok () (s.dropWhile isHSpace)

/-- The winnow `multispace0` parser: zero or more whitespace characters. -/
def multispace0 : Parser Unit := fun s => .ok () (s.dropWhile isMulSpace)

/-- The winnow `take_till(0.., c)`: consume up to (not including) the first
occurrence of `c`, or the whole rest if `c` never occurs; never fails. -/
def take_till0 (c : Char) : Parser Str := fun s =>
  .ok (s.takeWhile (fun x => !(x == c))) (s.dropWhile (fun x => !(x == c)))

/-- The winnow `take_till(1.., c)`: like `take_till0` but at least one
character must precede `c`; fails without consuming otherwise. -/
def take_till1 (c : Char) : Parser Str := fun s =>
  match s.takeWhile (fun x => !(x == c)) with
  | [] => .err .tok s
  | pre => .ok pre (s.dropWhile (fun x => !(x == c)))

/-- The winnow `take_until(0.., c)`: consume up to the first occurrence of `c`,
which must exist in the remaining input; fails without consuming otherwise. -/
def take_until0 (c : Char) : Parser Str := fun s =>
  match s.dropWhile (fun x => !(x == c)) with
  | [] => .err .tok s
  | rest => .ok (s.takeWhile (fun x => !(x == c))) rest

/-- The winnow `take_until(1.., c)`: additionally at least one character must
precede the occurrence of `c`. -/
def take_until1 (c : Char) : Parser Str := fun s =>
  match take_until0 c s with
  | .ok [] _ => .err .tok s
  | r => r

/-- The winnow `delimited(l, inner, r)` combinator. -/
def delimitedP {α : Type} (l : Parser Unit) (inner : Parser α) (r : Parser Unit) :
    Parser α :=
  pseq l fun _ => pseq inner fun v => pmap r (fun _ => v)

/-- The winnow `parse_to` adapter: run `p`, convert its output with `f`; a
conversion failure resets the cursor to the checkpoint before `p` and raises a
conversion error (winnow's `Verify`). -/
def parseToP {α β : Type} (p : Parser α) (f : α → Option β) : Parser β := fun s =>
  match p s with
  | .ok a r =>
    match f a with
    | some b => .ok b r
    | none => .err .conv s
  | .err k r => .err k r
  | .panic => .panic

/-- Decimal value of a digit run, most significant digit first (the
accumulator form of `str::parse` on an unsigned digit run). -/
def strToNatAux : Nat → Str → Nat
  | a, [] => a
  | a, c :: cs => strToNatAux (10 * a + (c.toNat - 48)) cs

/-- Decimal value of a digit run. -/
def strToNat (s : Str) : Nat := strToNatAux 0 s

/-- Largest `i64` value, the bound `str::parse::<i64>` enforces on an unsigned
digit run. -/
def i64Max : Nat := 9223372036854775807

/-- Largest `u64` value. -/
def u64Max : Nat := 18446744073709551615

/-- The composite `digit1.parse_to::<int type>()` used throughout the source:
a digit run converted to its value, failing with a conversion error (cursor
reset to the run's start) when the value exceeds the type's bound. -/
def digitsTo (bound : Nat) : Parser Nat :=
  parseToP digit1 (fun ds => if strToNat ds ≤ bound then some (strToNat ds) else none)

/-- Number of decimal digits that Rust `format!("{}", n)` prints for a
non-negative `n` (auxiliary, fuelled to stay structurally recursive). -/
def numDigitsAux : Nat → Nat → Nat
  | 0, _ => 1
  | fuel + 1, n => if n < 10 then 1 else numDigitsAux fuel (n / 10) + 1

/-- Number of decimal digits of `n` (at least 1; `0` prints as "0"). -/
def numDigits (n : Nat) : Nat := numDigitsAux n n

/-- An exact decimal value `mant / 10 ^ exp`, the model of the `f64` values
`parse_num` builds (each is the parse of a decimal literal, and the exact
decimal model separates every pair of values the claims compare). -/
structure DecRat : Type where
  mant : Int
  exp : Nat
deriving DecidableEq, Repr

/-- Value equality of two exact decimals: `a.mant / 10 ^ a.exp = b.mant / 10 ^ b.exp`
by cross-multiplication. -/
def DecRat.equiv (a b : DecRat) : Prop :=
  a.mant * (10 : Int) ^ b.exp = b.mant * (10 : Int) ^ a.exp

instance (a b : DecRat) : Decidable (DecRat.equiv a b) := by
  unfold DecRat.equiv; infer_instance

/-- The `Num` output type of `src/json.rs`: `Int(i64)` or `Float(f64)`. -/
inductive Num : Type where
  | int : Int → Num
  | float : DecRat → Num
deriving DecidableEq, Repr

/-- The `JsonValue` output type of `src/json.rs`. The `HashMap<String, JsonValue>`
of an object is modelled as its key-value association list, built by the same
per-pair `insert` (last write wins) the winnow `Accumulate` impl performs. -/
inductive JsonValue : Type where
  | null : JsonValue
  | bool : Bool → JsonValue
  | number : Num → JsonValue
  | str : Str → JsonValue
  | arr : List JsonValue → JsonValue
  | obj : List (Str × JsonValue) → JsonValue
deriving Repr

/-- `HashMap::insert`: overwrite the value when the key is present, append the
pair otherwise. -/
def insertKV : List (Str × JsonValue) → Str → JsonValue → List (Str × JsonValue)
  | [], k, v => [(k, v)]
  | (a, b) :: tl, k, v =>
    if a = k then (a, v) :: tl else (a, b) :: insertKV tl k v

/-- `HashMap::get`: the value mapped to `k`, if any. -/
def lookupKV : List (Str × JsonValue) → Str → Option JsonValue
  | [], _ => none
  | (a, b) :: tl, k => if a = k then some b else lookupKV tl k

/-- Fold the parsed key-value pairs into the object map, in textual order, by
`HashMap::insert` — exactly what winnow's `Accumulate for HashMap` does while
`separated(1.., parse_kv_pair, pair_separator)` runs. -/
def buildObj (ps : List (Str × JsonValue)) : List (Str × JsonValue) :=
  ps.foldl (fun m kv => insertKV m kv.1 kv.2) []

/-- The `sep_with_space` combinator of `src/json.rs`:
`multispace0; parser; multispace0`, yielding `()`. -/
def sep_with_space {α : Type} (p : Parser α) : Parser Unit :=
  pseq multispace0 fun _ => pseq p fun _ => multispace0

/-- `parse_null` of `src/json.rs`: the literal `null`. -/
def parse_null : Parser Unit := pmap (lit ("null".toList)) (fun _ => ())

/-- `bool::from_str`, the conversion behind `parse_bool`'s `parse_to`. -/
def boolOfToken (t : Str) : Option Bool :=
  if t = "true".toList then some true
  else if t = "false".toList then some false
  else none

/-- `parse_bool` of `src/json.rs`: `alt(("true", "false")).parse_to()`. -/
def parse_bool : Parser Bool :=
  parseToP (palt [litTok ("true".toList), litTok ("false".toList)]) boolOfToken

/-- `parse_num` of `src/json.rs`: optional `-`, a digit run as `i64`, and — when
a `.` follows — a second digit run as `i64`; the float value is the parse of
`format!("{}.{}", num, frac)` (so the fractional run is re-rendered from its
`i64` value: `numDigits frac` digits, leading zeros gone), with the sign
applied afterwards. -/
def parse_num : Parser Num := fun s =>
  match popt (lit ['-']) s with
  | .ok sign s1 =>
    match digitsTo i64Max s1 with
    | .ok num s2 =>
      match lit ['.'] s2 with
      | .ok _ s3 =>
        match digitsTo i64Max s3 with
        | .ok frac s4 =>
          let mant : Int := (num * 10 ^ numDigits frac + frac : Nat)
          .ok (.float ⟨if sign.isSome then -mant else mant, numDigits frac⟩) s4
        | .err k r => .err k r
        | .panic => .panic
      | _ =>
        .ok (.int (if sign.isSome then -(num : Int) else (num : Int))) s2
    | .err k r => .err k r
    | .panic => .panic
  | .err k r => .err k r
  | .panic => .panic

/-- `parse_string` of `src/json.rs`: `delimited('"', take_until(0.., '"'), '"')`. -/
def parse_string : Parser Str :=
  pseq (chr '"') fun _ => pseq (take_until0 '"') fun content =>
    pmap (chr '"') (fun _ => content)

/-- Tail of winnow `separated`: repeat separator-then-element, stopping (and
resetting to before the separator) as soon as either fails, fuelled. -/
def sepLoop {α : Type} (p : Parser α) (sep : Parser Unit) :
    Nat → List α → Parser (List α)
  | 0, acc => fun s => .ok acc.reverse s
  | fuel + 1, acc => fun s =>
    match sep s with
    | .err _ _ => .ok acc.reverse s
    | .panic => .panic
    | .ok _ s1 =>
      match p s1 with
      | .err _ _ => .ok acc.reverse s
      | .panic => .panic
      | .ok a s2 => sepLoop p sep fuel (a :: acc) s2

/-- The winnow `separated(min.., p, sep)` combinator for `min` 0 or 1: when the
first element fails, succeed empty (`min = 0`) or propagate the failure
(`min = 1`); afterwards iterate `sepLoop`. The fuel bounds the iteration count
and is always instantiated large enough for the input at hand. -/
def sepByF {α : Type} (p : Parser α) (sep : Parser Unit) (fuel : Nat)
    (minOne : Bool) : Parser (List α) := fun s =>
  match p s with
  | .err k r => if minOne then .err k r else .ok [] s
  | .panic => .panic
  | .ok a s1 => sepLoop p sep fuel [a] s1

/-- `parse_array` of `src/json.rs`, parameterised by the value parser it
recurses into: `delimited('[' , separated(0.., value, ','), ']')` with
whitespace-tolerant punctuation. -/
def parse_arrayWith (pv : Parser JsonValue) (fuel : Nat) : Parser (List JsonValue) :=
  delimitedP (sep_with_space (chr '['))
    (sepByF pv (sep_with_space (chr ',')) fuel false)
    (sep_with_space (chr ']'))

/-- The `separated_pair(parse_string, ':', parse_value)` key-value parser of
`parse_object`. -/
def kvPair (pv : Parser JsonValue) : Parser (Str × JsonValue) :=
  pseq parse_string fun k => pseq (sep_with_space (chr ':')) fun _ =>
    pmap pv (fun v => (k, v))

/-- `parse_object` of `src/json.rs`, parameterised by the value parser:
`delimited('{', separated(1.., kv, ','), '}')`, the pairs accumulated into the
map by per-pair insert. -/
def parse_objectWith (pv : Parser JsonValue) (fuel : Nat) :
    Parser (List (Str × JsonValue)) :=
  pmap
    (delimitedP (sep_with_space (chr '{'))
      (sepByF (kvPair pv) (sep_with_space (chr ',')) fuel true)
      (sep_with_space (chr '}')))
    buildObj

/-- `parse_value` of `src/json.rs`: the ordered alternation over null, bool,
number, string, array, object, fuelled to make the mutual recursion with
array/object structural. Each recursive step consumes at least one character,
so any fuel exceeding the input length is enough. -/
def parse_valueF : Nat → Parser JsonValue
  | 0 => fun s => .err .tok s
  | fuel + 1 => fun s =>
    palt
      [ pmap parse_null (fun _ => JsonValue.null),
        pmap parse_bool JsonValue.bool,
        pmap parse_num JsonValue.number,
        pmap parse_string JsonValue.str,
        pmap (parse_arrayWith (parse_valueF fuel) fuel) JsonValue.arr,
        pmap (parse_objectWith (parse_valueF fuel) fuel) JsonValue.obj ] s

/-- `parse_value` at adequate fuel for its input. -/
def parse_value : Parser JsonValue := fun s => parse_valueF (s.length + 1) s

/-- `parse_array` as the standalone function of `src/json.rs` (recursing into
`parse_value`). -/
def parse_array : Parser (List JsonValue) := fun s =>
  parse_arrayWith parse_value (s.length + 1) s

/-- `parse_object` as the standalone function of `src/json.rs`. -/
def parse_object : Parser (List (Str × JsonValue)) := fun s =>
  parse_objectWith parse_value (s.length + 1) s

/-- `parse_json` of `src/json.rs`: run `parse_value` on the document and return
the value, dropping whatever input remains. -/
def parse_json (s : Str) : TopResult JsonValue :=
  match parse_value s with
  | .ok v _ => .ok v
  | .err k _ => .err k
  | .panic => .panic

/-- The `HttpMethod` enum of `src/nginx_log.rs`. -/
inductive HttpMethod : Type where
  | get | post | put | delete | head | options | connect | trace | patch
deriving DecidableEq, Repr

/-- The `HttpVersion` enum of `src/nginx_log.rs`. -/
inductive HttpVersion : Type where
  | http1_0 | http1_1 | http2_0 | http3_0
deriving DecidableEq, Repr

/-- `std::net::IpAddr`, restricted to the `V4` variant the code constructs. -/
inductive IpAddr : Type where
  | v4 : Nat → Nat → Nat → Nat → IpAddr
deriving DecidableEq, Repr

/-- The `NginxLog` record of `src/nginx_log.rs`; `datetime` is the
`DateTime<Utc>` as Unix seconds. -/
structure NginxLog : Type where
  addr : IpAddr
  datetime : Int
  method : HttpMethod
  path : Str
  http_version : HttpVersion
  status_code : Nat
  size : Nat
  referer : Str
  user_agent : Str
deriving DecidableEq, Repr

/-- `HttpMethod::from_str` of `src/nginx_log.rs`: exhaustive match over the 9
verbs, `Err` otherwise. -/
def methodOfToken (t : Str) : Option HttpMethod :=
  if t = "GET".toList then some .get
  else if t = "POST".toList then some .post
  else if t = "PUT".toList then some .put
  else if t = "DELETE".toList then some .delete
  else if t = "HEAD".toList then some .head
  else if t = "OPTIONS".toList then some .options
  else if t = "CONNECT".toList then some .connect
  else if t = "TRACE".toList then some .trace
  else if t = "PATCH".toList then some .patch
  else none

/-- `HttpVersion::from_str` of `src/nginx_log.rs`. -/
def versionOfToken (t : Str) : Option HttpVersion :=
  if t = "HTTP/1.0".toList then some .http1_0
  else if t = "HTTP/1.1".toList then some .http1_1
  else if t = "HTTP/2.0".toList then some .http2_0
  else if t = "HTTP/3.0".toList then some .http3_0
  else none

/-- First element plus `n` further separator-then-element steps of the winnow
`separated(n+1, p, sep)` combinator (exact repetition count, as used for the
four dotted octets): any failure before the count is reached propagates. -/
def sepTailN {α : Type} (p : Parser α) (sep : Parser Unit) : Nat → Parser (List α)
  | 0 => ppure []
  | n + 1 =>
    pseq sep fun _ => pseq p fun a => pmap (sepTailN p sep n) (fun rest => a :: rest)

/-- The winnow `separated(n, p, sep)` combinator with an exact count `n ≥ 1`. -/
def separatedN {α : Type} (p : Parser α) (sep : Parser Unit) (n : Nat) :
    Parser (List α) :=
  match n with
  | 0 => ppure []
  | m + 1 => pseq p fun a => pmap (sepTailN p sep m) (fun rest => a :: rest)

/-- `parse_ip` of `src/nginx_log.rs`: four `digit1.parse_to::<u8>()` octets
separated by `.`, then `space0`; the `Ipv4Addr::new` call indexes the four
collected octets. -/
def parse_ip : Parser IpAddr := fun s =>
  match separatedN (digitsTo 255) (lit ['.']) 4 s with
  | .ok ds r =>
    match ds with
    | [a, b, c, d] => (pmap space0 (fun _ => IpAddr.v4 a b c d)) r
    | _ => .panic
  | .err k r => .err k r
  | .panic => .panic

/-- `parse_ignore` of `src/nginx_log.rs`: the fixed literal `- - `. -/
def parse_ignore : Parser Unit := lit ("- - ".toList)

/-- Read one or two ASCII digits (chrono's flexible-width numeric field). -/
def grabDigits : Nat → Nat → Str → Nat × Str
  | 0, acc, s => (acc, s)
  | _ + 1, acc, [] => (acc, [])
  | m + 1, acc, c :: r =>
    if isDigitC c then grabDigits m (10 * acc + (c.toNat - 48)) r else (acc, c :: r)

/-- Read at least one and at most `maxD` ASCII digits. -/
def readNum (maxD : Nat) (s : Str) : Option (Nat × Str) :=
  match s with
  | c :: _ => if isDigitC c then some (grabDigits maxD 0 s) else none
  | [] => none

/-- Read exactly two ASCII digits (chrono's fixed two-digit offset fields). -/
def read2 (s : Str) : Option (Nat × Str) :=
  match s with
  | a :: b :: r =>
    if isDigitC a && isDigitC b then some (10 * (a.toNat - 48) + (b.toNat - 48), r)
    else none
  | _ => none

/-- Expect one exact character. -/
def expectC (c : Char) : Str → Option Str
  | x :: r => if x = c then some r else none
  | [] => none

/-- Month number of a chrono `%b` abbreviation (matched case-insensitively). -/
def monthOfAbbrev (a b c : Char) : Option Nat :=
  match a.toLower, b.toLower, c.toLower with
  | 'j', 'a', 'n' => some 1
  | 'f', 'e', 'b' => some 2
  | 'm', 'a', 'r' => some 3
  | 'a', 'p', 'r' => some 4
  | 'm', 'a', 'y' => some 5
  | 'j', 'u', 'n' => some 6
  | 'j', 'u', 'l' => some 7
  | 'a', 'u', 'g' => some 8
  | 's', 'e', 'p' => some 9
  | 'o', 'c', 't' => some 10
  | 'n', 'o', 'v' => some 11
  | 'd', 'e', 'c' => some 12
  | _, _, _ => none

/-- Gregorian leap-year test. -/
def isLeap (y : Int) : Bool := (y % 4 == 0 && y % 100 != 0) || y % 400 == 0

/-- Number of days in month `m` of year `y`. -/
def daysInMonth (y : Int) (m : Nat) : Nat :=
  match m with
  | 1 => 31 | 2 => if isLeap y then 29 else 28 | 3 => 31 | 4 => 30
  | 5 => 31 | 6 => 30 | 7 => 31 | 8 => 31 | 9 => 30 | 10 => 31
  | 11 => 30 | 12 => 31 | _ => 0

/-- Days from 1970-01-01 to the civil date `y-m-d` (standard civil-from-days
inverse; all divisions act on non-negative values for the four-digit years
`chronoParse` produces). -/
def daysFromCivil (y : Int) (m d : Nat) : Int :=
  let y2 : Int := if m ≤ 2 then y - 1 else y
  let era : Int := (if 0 ≤ y2 then y2 else y2 - 399) / 400
  let yoe : Int := y2 - era * 400
  let mp : Nat := (m + 9) % 12
  let doy : Int := ((153 * mp + 2) / 5 + d - 1 : Nat)
  let doe : Int := yoe * 365 + yoe / 4 - yoe / 100 + doy
  era * 146097 + doe - 719468

/-- Model of `chrono::DateTime::parse_from_str(s, "%d/%b/%Y:%H:%M:%S %z")`
followed by `.with_timezone(&Utc)`: parse and validate the fixed format and
return Unix seconds (`none` exactly when chrono returns `Err`: trailing input,
malformed fields, or out-of-range components; leap-second inputs are outside
the model). -/
def chronoParse (s : Str) : Option Int := do
  let (dd, s1) ← readNum 2 s
  let s2 ← expectC '/' s1
  let (mon, s3) ←
    match s2 with
    | a :: b :: c :: r => (monthOfAbbrev a b c).map (fun m => (m, r))
    | _ => none
  let s4 ← expectC '/' s3
  let (yy, s5) ← readNum 4 s4
  let s6 ← expectC ':' s5
  let (hh, s7) ← readNum 2 s6
  let s8 ← expectC ':' s7
  let (mi, s9) ← readNum 2 s8
  let s10 ← expectC ':' s9
  let (ss, s11) ← readNum 2 s10
  let s12 := s11.dropWhile isMulSpace
  let (sgn, s13) ←
    match s12 with
    | '+' :: r => some ((1 : Int), r)
    | '-' :: r => some ((-1 : Int), r)
    | _ => none
  let (oh, s14) ← read2 s13
  let s15 := match s14 with | ':' :: r => r | other => other
  let (om, s16) ← read2 s15
  if s16 = [] ∧ 1 ≤ dd ∧ dd ≤ daysInMonth (yy : Int) mon ∧ hh ≤ 23 ∧ mi ≤ 59 ∧
      ss ≤ 59 ∧ oh ≤ 23 ∧ om ≤ 59 then
    some (daysFromCivil (yy : Int) mon dd * 86400 + (hh * 3600 + mi * 60 + ss : Nat)
      - sgn * (oh * 3600 + om * 60 : Nat))
  else
    none

/-- `parse_datetime` of `src/nginx_log.rs`: `delimited("[", take_till(0.., ']'), "]")`,
then `space0`, then `DateTime::parse_from_str(..).unwrap()` — the `unwrap`
panics whenever chrono rejects the bracket interior. -/
def parse_datetime : Parser Int := fun s =>
  match (delimitedP (lit ['[']) (take_till0 ']') (lit [']'])) s with
  | .ok interior r =>
    match space0 r with
    | .ok _ r2 =>
      match chronoParse interior with
      | some t => .ok t r2
      | none => .panic
    | .err k r2 => .err k r2
    | .panic => .panic
  | .err k r => .err k r
  | .panic => .panic

/-- `parse_http_method` of `src/nginx_log.rs`: `alt` over the 9 verb literals,
`parse_to` through `HttpMethod::from_str`, then `space0`. -/
def parse_http_method : Parser HttpMethod :=
  pseq
    (parseToP
      (palt
        [ litTok ("GET".toList), litTok ("POST".toList), litTok ("PUT".toList),
          litTok ("DELETE".toList), litTok ("HEAD".toList), litTok ("OPTIONS".toList),
          litTok ("CONNECT".toList), litTok ("TRACE".toList), litTok ("PATCH".toList) ])
      methodOfToken)
    fun m => pmap space0 (fun _ => m)

/-- `parse_url` of `src/nginx_log.rs`: `take_till(1.., ' ')` then `space0`. -/
def parse_url : Parser Str :=
  pseq (take_till1 ' ') fun u => pmap space0 (fun _ => u)

/-- `parse_http_version` of `src/nginx_log.rs`: `alt` over the 4 version
literals, `parse_to` through `HttpVersion::from_str`, then `space0`. -/
def parse_http_version : Parser HttpVersion :=
  pseq
    (parseToP
      (palt
        [ litTok ("HTTP/1.0".toList), litTok ("HTTP/1.1".toList),
          litTok ("HTTP/2.0".toList), litTok ("HTTP/3.0".toList) ])
      versionOfToken)
    fun v => pmap space0 (fun _ => v)

/-- `parse_http` of `src/nginx_log.rs`: the quoted request line
`delimited('"', (method, url, version), '"')` then `space0`. -/
def parse_http : Parser (HttpMethod × Str × HttpVersion) :=
  pseq
    (delimitedP (chr '"')
      (pseq parse_http_method fun m => pseq parse_url fun u =>
        pmap parse_http_version (fun v => (m, u, v)))
      (chr '"'))
    fun muv => pmap space0 (fun _ => muv)

/-- `parse_status` of `src/nginx_log.rs`: `digit1.parse_to::<u16>()` then `space0`. -/
def parse_status : Parser Nat :=
  pseq (digitsTo 65535) fun n => pmap space0 (fun _ => n)

/-- `parse_body_bytes` of `src/nginx_log.rs`: `digit1.parse_to::<u64>()` then
`space0`. -/
def parse_body_bytes : Parser Nat :=
  pseq (digitsTo u64Max) fun n => pmap space0 (fun _ => n)

/-- `parse_quoted_string` of `src/nginx_log.rs`:
`delimited('"', take_until(1.., '"'), '"')` then `space0`. -/
def parse_quoted_string : Parser Str :=
  pseq (delimitedP (chr '"') (take_until1 '"') (chr '"')) fun t =>
    pmap space0 (fun _ => t)

/-- `parse_nginx_log` of `src/nginx_log.rs`: the strictly sequential field
assembly; the record is returned whatever input remains. -/
def parse_nginx_log (s : Str) : TopResult NginxLog :=
  match
    (pseq parse_ip fun ip => pseq parse_ignore fun _ => pseq parse_datetime fun dt =>
      pseq parse_http fun muv => pseq parse_status fun st =>
      pseq parse_body_bytes fun sz => pseq parse_quoted_string fun ref =>
      pmap parse_quoted_string fun ua =>
        (⟨ip, dt, muv.1, muv.2.1, muv.2.2, st, sz, ref, ua⟩ : NginxLog)) s
  with
  | .ok v _ => .ok v
  | .err k _ => .err k
  | .panic => .panic


/-- Head of the list (if any) fails the predicate `p` — the shape of the text
that follows a maximal `p`-run. -/
def headNotP (p : Char → Bool) : Str → Prop
  | [] => True
  | c :: _ => p c = false

instance (p : Char → Bool) : ∀ l : Str, Decidable (headNotP p l) := fun l => by
  cases l with
  | nil => exact isTrue trivial
  | cons c cs => unfold headNotP; infer_instance

/-- An IPv4 address text assembled from the octet groups preceding some tail:
each group is followed by its separating `.` (so `ipJoin ["1", "2"] t` is
`1.2.` ++ `t`). Used to place a bad octet group at any of the four positions. -/
def ipJoin (pre : List Str) (tail : Str) : Str :=
  pre.foldr (fun g acc => g ++ '.' :: acc) tail

/-- A fractional digit run with no leading zero: if its head is the digit `0`
(code point 48) it is the single-digit run `"0"`. -/
def noLeadingZeros : Str → Prop
  | [] => True
  | c :: cs => c.toNat = 48 → cs = []

instance : ∀ l : Str, Decidable (noLeadingZeros l) := fun l => by
  cases l with
  | nil => exact isTrue trivial
  | cons c cs => unfold noLeadingZeros; infer_instance

/-- Left-biased choice on options (first hit wins), used to state lookup
through an append. -/
def optOr {α : Type} : Option α → Option α → Option α
  | some a, _ => some a
  | none, b => b

/-- Modelled from the spec: the exact value of the textual concatenation of
the integer digit run `I` and the fractional digit run `F` with a `.` in
between — `strToNat I + strToNat F / 10 ^ F.length`, here as a `DecRat`. -/
def specConcatVal (I F : Str) : DecRat :=
  ⟨((strToNat I * 10 ^ F.length + strToNat F : Nat) : Int), F.length⟩

theorem takeWhile_append_all {p : Char → Bool} :
    ∀ l r : Str, (∀ c ∈ l, p c = true) → headNotP p r → (l ++ r).takeWhile p = l := by
  intro l r hl hr
  induction l with
  | nil =>
    simp only [List.nil_append]
    cases r with
    | nil => rfl
    | cons c t =>
      have hr' : p c = false := hr
      simp [List.takeWhile_cons, hr']
  | cons c cs ih =>
    have hc : p c = true := hl c (by simp)
    simp only [List.cons_append, List.takeWhile_cons, hc]
    simp [ih (fun x hx => hl x (by simp [hx]))]

theorem dropWhile_append_all {p : Char → Bool} :
    ∀ l r : Str, (∀ c ∈ l, p c = true) → headNotP p r → (l ++ r).dropWhile p = r := by
  intro l r hl hr
  induction l with
  | nil =>
    simp only [List.nil_append]
    cases r with
    | nil => rfl
    | cons c t =>
      have hr' : p c = false := hr
      simp [List.dropWhile_cons, hr']
  | cons c cs ih =>
    have hc : p c = true := hl c (by simp)
    simp only [List.cons_append, List.dropWhile_cons, hc]
    simpa using ih (fun x hx => hl x (by simp [hx]))

theorem digit1_eval {l r : Str} (h1 : l ≠ []) (h2 : ∀ c ∈ l, isDigitC c = true)
    (h3 : headNotP isDigitC r) : digit1 (l ++ r) = .ok l r := by
  unfold digit1
  rw [takeWhile_append_all l r h2 h3, dropWhile_append_all l r h2 h3]
  cases l with
  | nil => exact absurd rfl h1
  | cons c cs => rfl

theorem digitsTo_eval {l r : Str} {bound : Nat} (h1 : l ≠ [])
    (h2 : ∀ c ∈ l, isDigitC c = true) (h3 : headNotP isDigitC r)
    (h4 : strToNat l ≤ bound) : digitsTo bound (l ++ r) = .ok (strToNat l) r := by
  unfold digitsTo parseToP
  rw [digit1_eval h1 h2 h3]
  simp [h4]

theorem digitsTo_overflow {l r : Str} {bound : Nat} (h1 : l ≠ [])
    (h2 : ∀ c ∈ l, isDigitC c = true) (h3 : headNotP isDigitC r)
    (h4 : bound < strToNat l) : digitsTo bound (l ++ r) = .err .conv (l ++ r) := by
  unfold digitsTo parseToP
  rw [digit1_eval h1 h2 h3]
  simp [Nat.not_le.mpr h4]

theorem digit1_nondigit {c : Char} {cs : Str} (h : isDigitC c = false) :
    digit1 (c :: cs) = .err .tok (c :: cs) := by
  unfold digit1
  simp [List.takeWhile_cons, h]

theorem lit_single_ne {a c : Char} {t : Str} (h : a ≠ c) :
    lit [a] (c :: t) = .err .tok (c :: t) := by
  have hlc : litCore [a] (c :: t) = none := by
    unfold litCore
    rw [if_neg h]
  simp [lit, hlc]

theorem lit_single_eq (a : Char) (t : Str) : lit [a] (a :: t) = .ok () t := by
  have hlc : litCore [a] (a :: t) = some t := by
    unfold litCore
    rw [if_pos rfl]
    rfl
  simp [lit, hlc]

theorem strToNatAux_nil (a : Nat) : strToNatAux a [] = a := rfl

theorem strToNatAux_cons (a : Nat) (c : Char) (cs : Str) :
    strToNatAux a (c :: cs) = strToNatAux (10 * a + (c.toNat - 48)) cs := rfl

theorem strToNatAux_acc : ∀ (l : Str) (a : Nat),
    strToNatAux a l = a * 10 ^ l.length + strToNat l := by
  intro l
  induction l with
  | nil =>
    intro a
    rw [strToNatAux_nil, show strToNat [] = 0 from rfl]
    simp
  | cons c cs ih =>
    intro a
    rw [strToNatAux_cons, ih]
    have hs : strToNat (c :: cs) = (c.toNat - 48) * 10 ^ cs.length + strToNat cs := by
      show strToNatAux 0 (c :: cs) = _
      rw [strToNatAux_cons, ih]
      ring_nf
    rw [hs]
    simp only [List.length_cons, Nat.pow_succ]
    ring

theorem strToNat_cons (c : Char) (cs : Str) :
    strToNat (c :: cs) = (c.toNat - 48) * 10 ^ cs.length + strToNat cs := by
  show strToNatAux 0 (c :: cs) = _
  rw [strToNatAux_cons, strToNatAux_acc]
  ring_nf

theorem isDigitC_bounds {c : Char} (h : isDigitC c = true) :
    48 ≤ c.toNat ∧ c.toNat ≤ 57 := by
  simpa [isDigitC, Bool.and_eq_true, decide_eq_true_eq] using h

theorem strToNat_lt {l : Str} (h : ∀ c ∈ l, isDigitC c = true) :
    strToNat l < 10 ^ l.length := by
  induction l with
  | nil => rw [show strToNat [] = 0 from rfl]; simp
  | cons c cs ih =>
    have hc := isDigitC_bounds (h c (by simp))
    have hd : c.toNat - 48 ≤ 9 := by omega
    have hcs : strToNat cs < 10 ^ cs.length := ih (fun x hx => h x (by simp [hx]))
    rw [strToNat_cons]
    calc (c.toNat - 48) * 10 ^ cs.length + strToNat cs
        < (c.toNat - 48) * 10 ^ cs.length + 10 ^ cs.length := by omega
      _ = (c.toNat - 48 + 1) * 10 ^ cs.length := by ring
      _ ≤ 10 * 10 ^ cs.length := Nat.mul_le_mul_right _ (by omega)
      _ = 10 ^ (c :: cs).length := by rw [List.length_cons, Nat.pow_succ]; ring

theorem strToNat_ge {c : Char} {cs : Str} (h : isDigitC c = true)
    (h0 : c.toNat ≠ 48) : 10 ^ cs.length ≤ strToNat (c :: cs) := by
  have hc := isDigitC_bounds h
  rw [strToNat_cons]
  have : 1 * 10 ^ cs.length ≤ (c.toNat - 48) * 10 ^ cs.length :=
    Nat.mul_le_mul_right _ (by omega)
  omega

theorem numDigitsAux_zero (n : Nat) : numDigitsAux 0 n = 1 := rfl

theorem numDigitsAux_succ (f n : Nat) :
    numDigitsAux (f + 1) n = if n < 10 then 1 else numDigitsAux f (n / 10) + 1 := rfl

theorem numDigitsAux_spec : ∀ (k fuel n : Nat), n ≤ fuel → 10 ^ k ≤ n →
    n < 10 ^ (k + 1) → numDigitsAux fuel n = k + 1 := by
  intro k
  induction k with
  | zero =>
    intro fuel n _ _ hup
    cases fuel with
    | zero => rfl
    | succ f =>
      have hn : n < 10 := by simpa using hup
      rw [numDigitsAux_succ, if_pos hn]
  | succ k ih =>
    intro fuel n hfuel hlo hup
    have h10 : 10 ≤ n := by
      have : 10 ^ 1 ≤ 10 ^ (k + 1) := Nat.pow_le_pow_right (by omega) (by omega)
      calc 10 = 10 ^ 1 := (pow_one 10).symm
        _ ≤ 10 ^ (k + 1) := this
        _ ≤ n := hlo
    cases fuel with
    | zero => omega
    | succ f =>
      have hnot : ¬ n < 10 := by omega
      have hdiv_lt : n / 10 < n := Nat.div_lt_self (by omega) (by omega)
      have h1 : n / 10 ≤ f := by omega
      have h2 : 10 ^ k ≤ n / 10 := by
        rw [Nat.le_div_iff_mul_le (by omega)]
        calc 10 ^ k * 10 = 10 ^ (k + 1) := (Nat.pow_succ 10 k).symm
          _ ≤ n := hlo
      have h3 : n / 10 < 10 ^ (k + 1) := by
        rw [Nat.div_lt_iff_lt_mul (by omega)]
        calc n < 10 ^ (k + 1 + 1) := hup
          _ = 10 ^ (k + 1) * 10 := Nat.pow_succ 10 (k + 1)
      rw [numDigitsAux_succ, if_neg hnot, ih f (n / 10) h1 h2 h3]

theorem numDigits_strToNat {F : Str} (h1 : F ≠ [])
    (h2 : ∀ c ∈ F, isDigitC c = true) (h3 : noLeadingZeros F) :
    numDigits (strToNat F) = F.length := by
  cases F with
  | nil => exact absurd rfl h1
  | cons c cs =>
    by_cases hc : c.toNat = 48
    · have hnil : cs = [] := h3 hc
      subst hnil
      have h0 : strToNat [c] = 0 := by
        rw [strToNat_cons, hc]
        rw [show strToNat [] = 0 from rfl]
        simp
      rw [h0]
      rfl
    · have hlo : 10 ^ cs.length ≤ strToNat (c :: cs) :=
        strToNat_ge (h2 c (by simp)) hc
      have hup : strToNat (c :: cs) < 10 ^ (cs.length + 1) := by
        have := strToNat_lt h2
        simpa using this
      exact numDigitsAux_spec cs.length (strToNat (c :: cs)) (strToNat (c :: cs))
        (le_refl _) hlo hup

theorem isDigitC_ne_dash {c : Char} (h : isDigitC c = true) : ('-' : Char) ≠ c := by
  intro he
  rw [← he] at h
  exact absurd h (by decide)

theorem popt_dash_digit {c : Char} {cs : Str} (h : isDigitC c = true) :
    popt (lit ['-']) (c :: cs) = .ok none (c :: cs) := by
  simp [popt, lit_single_ne (isDigitC_ne_dash h)]

theorem popt_dash_dash (t : Str) : popt (lit ['-']) ('-' :: t) = .ok (some ()) t := by
  simp [popt, lit_single_eq]

theorem parse_num_digits {ds : Str} (h1 : ds ≠ []) (h2 : ∀ c ∈ ds, isDigitC c = true)
    (h3 : strToNat ds ≤ i64Max) :
    parse_num ds = .ok (.int (strToNat ds)) [] ∧
    parse_num ('-' :: ds) = .ok (.int (-(strToNat ds : Int))) [] := by
  obtain ⟨c, cs, rfl⟩ : ∃ c cs, ds = c :: cs := by
    cases ds with
    | nil => exact absurd rfl h1
    | cons c cs => exact ⟨c, cs, rfl⟩
  have hnn : headNotP isDigitC [] := trivial
  have hdig : digitsTo i64Max (c :: cs) = .ok (strToNat (c :: cs)) [] := by
    have h := digitsTo_eval (r := []) h1 h2 hnn h3
    simpa using h
  have hdot : lit ['.'] ([] : Str) = .err .tok [] := rfl
  refine ⟨?_, ?_⟩
  · simp [parse_num, popt_dash_digit (h2 c (by simp)), hdig, hdot]
  · simp [parse_num, popt_dash_dash, hdig, hdot]

theorem parse_num_int_frac {I F : Str} (hI1 : I ≠ []) (hI2 : ∀ c ∈ I, isDigitC c = true)
    (hI3 : strToNat I ≤ i64Max) (hF1 : F ≠ []) (hF2 : ∀ c ∈ F, isDigitC c = true)
    (hF3 : strToNat F ≤ i64Max) :
    parse_num (I ++ '.' :: F) =
      .ok (.float ⟨((strToNat I * 10 ^ numDigits (strToNat F) + strToNat F : Nat) : Int),
        numDigits (strToNat F)⟩) [] ∧
    parse_num ('-' :: (I ++ '.' :: F)) =
      .ok (.float ⟨-((strToNat I * 10 ^ numDigits (strToNat F) + strToNat F : Nat) : Int),
        numDigits (strToNat F)⟩) [] := by
  obtain ⟨c, cs, rfl⟩ : ∃ c cs, I = c :: cs := by
    cases I with
    | nil => exact absurd rfl hI1
    | cons c cs => exact ⟨c, cs, rfl⟩
  have hdotF : headNotP isDigitC ('.' :: F) := by
    show isDigitC '.' = false
    decide
  have hdigI : digitsTo i64Max (c :: (cs ++ '.' :: F)) = .ok (strToNat (c :: cs)) ('.' :: F) := by
    have h := digitsTo_eval hI1 hI2 hdotF hI3
    simpa using h
  have hnn : headNotP isDigitC [] := trivial
  have hdigF : digitsTo i64Max F = .ok (strToNat F) [] := by
    have h := digitsTo_eval (r := []) hF1 hF2 hnn hF3
    simpa using h
  refine ⟨?_, ?_⟩
  · simp [parse_num, popt_dash_digit (hI2 c (by simp)), hdigI, lit_single_eq, hdigF]
  · simp [parse_num, popt_dash_dash, hdigI, hdigF, lit_single_eq]

theorem insertKV_cons (x : Str) (y : JsonValue) (tl : List (Str × JsonValue))
    (a : Str) (b : JsonValue) :
    insertKV ((x, y) :: tl) a b =
      if x = a then (x, b) :: tl else (x, y) :: insertKV tl a b := rfl

theorem lookupKV_cons (x : Str) (y : JsonValue) (tl : List (Str × JsonValue))
    (k : Str) :
    lookupKV ((x, y) :: tl) k = if x = k then some y else lookupKV tl k := rfl

theorem lookup_insertKV (m : List (Str × JsonValue)) (a k : Str) (b : JsonValue) :
    lookupKV (insertKV m a b) k = if a = k then some b else lookupKV m k := by
  induction m with
  | nil =>
    show lookupKV [(a, b)] k = _
    rw [lookupKV_cons]
  | cons hd tl ih =>
    obtain ⟨x, y⟩ := hd
    rw [insertKV_cons]
    by_cases hxa : x = a
    · rw [if_pos hxa, lookupKV_cons, lookupKV_cons]
      by_cases hak : a = k
      · rw [if_pos (hxa.trans hak), if_pos hak]
      · have hxk : ¬ x = k := fun h => hak (hxa.symm.trans h)
        rw [if_neg hxk, if_neg hak, if_neg hxk]
    · rw [if_neg hxa, lookupKV_cons, lookupKV_cons, ih]
      by_cases hak : a = k
      · have hxk : ¬ x = k := fun h => hxa (h.trans hak.symm)
        rw [if_neg hxk, if_pos hak, if_pos hak]
      · by_cases hxk : x = k
        · rw [if_pos hxk, if_neg hak, if_pos hxk]
        · rw [if_neg hxk, if_neg hak, if_neg hak, if_neg hxk]

theorem lookup_appendKV (l1 l2 : List (Str × JsonValue)) (k : Str) :
    lookupKV (l1 ++ l2) k = optOr (lookupKV l1 k) (lookupKV l2 k) := by
  induction l1 with
  | nil => simp [lookupKV, optOr]
  | cons hd tl ih =>
    obtain ⟨x, y⟩ := hd
    rw [List.cons_append, lookupKV_cons, lookupKV_cons]
    by_cases hxk : x = k
    · simp [hxk, optOr]
    · simp [hxk, ih]

theorem lookup_foldl_insert (ps : List (Str × JsonValue)) :
    ∀ (m : List (Str × JsonValue)) (k : Str),
      lookupKV (ps.foldl (fun acc kv => insertKV acc kv.1 kv.2) m) k =
        optOr (lookupKV ps.reverse k) (lookupKV m k) := by
  induction ps with
  | nil => intro m k; simp [lookupKV, optOr]
  | cons hd tl ih =>
    intro m k
    obtain ⟨a, b⟩ := hd
    simp only [List.foldl_cons, List.reverse_cons]
    rw [ih, lookup_appendKV, lookup_insertKV]
    cases hres : lookupKV tl.reverse k with
    | some v => simp [optOr]
    | none =>
      simp only [optOr]
      rw [lookupKV_cons]
      by_cases hak : a = k
      · simp [hak, lookupKV, optOr]
      · simp [hak, lookupKV, optOr]

theorem mem_keys_insertKV (m : List (Str × JsonValue)) (a k : Str) (b : JsonValue) :
    k ∈ (insertKV m a b).map Prod.fst ↔ k ∈ m.map Prod.fst ∨ k = a := by
  induction m with
  | nil => simp [insertKV]
  | cons hd tl ih =>
    obtain ⟨x, y⟩ := hd
    rw [insertKV_cons]
    by_cases hxa : x = a
    · rw [if_pos hxa]
      have hka : k = a ↔ k = x := by rw [hxa]
      simp only [List.map_cons, List.mem_cons, hka]
      tauto
    · rw [if_neg hxa]
      simp only [List.map_cons, List.mem_cons, ih]
      tauto

theorem nodup_insertKV (m : List (Str × JsonValue)) (a : Str) (b : JsonValue)
    (h : (m.map Prod.fst).Nodup) : ((insertKV m a b).map Prod.fst).Nodup := by
  induction m with
  | nil => simp [insertKV]
  | cons hd tl ih =>
    obtain ⟨x, y⟩ := hd
    simp only [List.map_cons, List.nodup_cons] at h
    rw [insertKV_cons]
    by_cases hxa : x = a
    · rw [if_pos hxa]
      simp only [List.map_cons, List.nodup_cons]
      exact h
    · rw [if_neg hxa]
      simp only [List.map_cons, List.nodup_cons]
      refine ⟨?_, ih h.2⟩
      rw [mem_keys_insertKV]
      rintro (hmem | heq)
      · exact h.1 hmem
      · exact hxa heq

theorem nodup_foldl_insert (ps : List (Str × JsonValue)) :
    ∀ m : List (Str × JsonValue), (m.map Prod.fst).Nodup →
      ((ps.foldl (fun acc kv => insertKV acc kv.1 kv.2) m).map Prod.fst).Nodup := by
  induction ps with
  | nil => intro m h; simpa using h
  | cons hd tl ih =>
    intro m h
    simp only [List.foldl_cons]
    exact ih _ (nodup_insertKV m hd.1 hd.2 h)

theorem lookup_buildObj (ps : List (Str × JsonValue)) (k : Str) :
    lookupKV (buildObj ps) k = lookupKV ps.reverse k := by
  unfold buildObj
  rw [lookup_foldl_insert]
  cases h : lookupKV ps.reverse k with
  | some v => simp [optOr]
  | none => simp [optOr, lookupKV]

theorem nodup_buildObj (ps : List (Str × JsonValue)) :
    ((buildObj ps).map Prod.fst).Nodup := by
  unfold buildObj
  exact nodup_foldl_insert ps [] (by simp)

theorem dropWhile_sfx (p : Char → Bool) : ∀ l : Str, l.dropWhile p <:+ l := by
  intro l
  induction l with
  | nil => exact List.suffix_refl _
  | cons c t ih =>
    rw [List.dropWhile_cons]
    by_cases h : p c = true
    · rw [if_pos h]
      exact ih.trans (List.suffix_cons c t)
    · rw [if_neg h]

theorem litCore_nil (s : Str) : litCore [] s = some s := rfl

theorem litCore_cons_nil (c : Char) (cs : Str) : litCore (c :: cs) [] = none := rfl

theorem litCore_cons (c b : Char) (cs bs : Str) :
    litCore (c :: cs) (b :: bs) = if c = b then litCore cs bs else none := rfl

theorem litCore_sfx : ∀ l s r : Str, litCore l s = some r → r <:+ s := by
  intro l
  induction l with
  | nil =>
    intro s r h
    rw [litCore_nil] at h
    cases h
    exact List.suffix_refl _
  | cons c cs ih =>
    intro s r h
    cases s with
    | nil => rw [litCore_cons_nil] at h; cases h
    | cons b bs =>
      rw [litCore_cons] at h
      by_cases hcb : c = b
      · rw [if_pos hcb] at h
        exact (ih bs r h).trans (List.suffix_cons b bs)
      · rw [if_neg hcb] at h
        cases h

theorem lit_ok_sfx {l s r : Str} {a : Unit} (h : lit l s = .ok a r) : r <:+ s := by
  unfold lit at h
  cases hlc : litCore l s with
  | some t => rw [hlc] at h; cases h; exact litCore_sfx l s _ hlc
  | none => rw [hlc] at h; cases h

theorem lit_err_eq {l s r : Str} {k : ErrKind} (h : lit l s = .err k r) : r = s := by
  unfold lit at h
  cases hlc : litCore l s with
  | some t => rw [hlc] at h; cases h
  | none => rw [hlc] at h; cases h; rfl

theorem lit_no_panic (l s : Str) : lit l s ≠ .panic := by
  intro h
  unfold lit at h
  cases hlc : litCore l s with
  | some t => rw [hlc] at h; cases h
  | none => rw [hlc] at h; cases h

theorem digit1_ok_sfx {s ds r : Str} (h : digit1 s = .ok ds r) : r <:+ s := by
  unfold digit1 at h
  cases htw : s.takeWhile isDigitC with
  | nil => rw [htw] at h; cases h
  | cons c t => rw [htw] at h; cases h; exact dropWhile_sfx _ s

theorem digit1_err_eq {s r : Str} {k : ErrKind} (h : digit1 s = .err k r) : r = s := by
  unfold digit1 at h
  cases htw : s.takeWhile isDigitC with
  | nil => rw [htw] at h; cases h; rfl
  | cons c t => rw [htw] at h; cases h

theorem digit1_no_panic (s : Str) : digit1 s ≠ .panic := by
  intro h
  unfold digit1 at h
  cases htw : s.takeWhile isDigitC with
  | nil => rw [htw] at h; cases h
  | cons c t => rw [htw] at h; cases h

theorem digitsTo_ok_sfx {b : Nat} {s r : Str} {v : Nat}
    (h : digitsTo b s = .ok v r) : r <:+ s := by
  unfold digitsTo parseToP at h
  cases hd : digit1 s with
  | ok ds t =>
    simp only [hd] at h
    by_cases hb : strToNat ds ≤ b
    · rw [if_pos hb] at h
      cases h
      exact digit1_ok_sfx hd
    · rw [if_neg hb] at h
      cases h
  | err k t => rw [hd] at h; cases h
  | panic => rw [hd] at h; cases h

theorem digitsTo_err_eq {b : Nat} {s r : Str} {k : ErrKind}
    (h : digitsTo b s = .err k r) : r = s := by
  unfold digitsTo parseToP at h
  cases hd : digit1 s with
  | ok ds t =>
    simp only [hd] at h
    by_cases hb : strToNat ds ≤ b
    · rw [if_pos hb] at h; cases h
    · rw [if_neg hb] at h; cases h; rfl
  | err k2 t =>
    rw [hd] at h
    cases h
    exact digit1_err_eq hd
  | panic => rw [hd] at h; cases h

theorem digitsTo_no_panic (b : Nat) (s : Str) : digitsTo b s ≠ .panic := by
  intro h
  unfold digitsTo parseToP at h
  cases hd : digit1 s with
  | ok ds t =>
    simp only [hd] at h
    by_cases hb : strToNat ds ≤ b
    · rw [if_pos hb] at h; cases h
    · rw [if_neg hb] at h; cases h
  | err k t => rw [hd] at h; cases h
  | panic => exact absurd hd (digit1_no_panic s)

theorem popt_lit_sfx (l s : Str) (o : Option Unit) (r : Str)
    (h : popt (lit l) s = .ok o r) : r <:+ s := by
  unfold popt at h
  cases hls : lit l s with
  | ok a t => rw [hls] at h; cases h; exact lit_ok_sfx hls
  | err k t => rw [hls] at h; cases h; exact List.suffix_refl s
  | panic => exact absurd hls (lit_no_panic l s)

theorem popt_lit_not_err (l s : Str) (k : ErrKind) (r : Str) :
    popt (lit l) s ≠ .err k r := by
  intro h
  unfold popt at h
  cases hls : lit l s with
  | ok a t => rw [hls] at h; cases h
  | err k2 t => rw [hls] at h; cases h
  | panic => exact absurd hls (lit_no_panic l s)

theorem popt_lit_no_panic (l s : Str) : popt (lit l) s ≠ .panic := by
  intro h
  unfold popt at h
  cases hls : lit l s with
  | ok a t => rw [hls] at h; cases h
  | err k2 t => rw [hls] at h; cases h
  | panic => exact absurd hls (lit_no_panic l s)

theorem parse_num_err_sfx : ∀ (s : Str) (k : ErrKind) (r : Str),
    parse_num s = .err k r → r <:+ s := by
  intro s k r h
  unfold parse_num at h
  cases hp : popt (lit ['-']) s with
  | ok o s1 =>
    simp only [hp] at h
    cases hd : digitsTo i64Max s1 with
    | ok num s2 =>
      simp only [hd] at h
      cases hl : lit ['.'] s2 with
      | ok u s3 =>
        simp only [hl] at h
        cases hf : digitsTo i64Max s3 with
        | ok fr s4 => simp only [hf] at h; cases h
        | err k2 r2 =>
          simp only [hf] at h
          cases h
          have h3 : r = s3 := digitsTo_err_eq hf
          rw [h3]
          exact (lit_ok_sfx hl).trans ((digitsTo_ok_sfx hd).trans
            (popt_lit_sfx _ _ _ _ hp))
        | panic => simp only [hf] at h; cases h
      | err k2 r2 => simp only [hl] at h; cases h
      | panic => simp only [hl] at h; cases h
    | err k2 r2 =>
      simp only [hd] at h
      cases h
      have h2 : r = s1 := digitsTo_err_eq hd
      rw [h2]
      exact popt_lit_sfx _ _ _ _ hp
    | panic => simp only [hd] at h; cases h
  | err k2 r2 => exact absurd hp (popt_lit_not_err _ _ _ _)
  | panic => exact absurd hp (popt_lit_no_panic _ _)

theorem sepTailN_sfx {α : Type} {p : Parser α} {sep : Parser Unit}
    (hpo : ∀ s a r, p s = .ok a r → r <:+ s)
    (hpe : ∀ s k r, p s = .err k r → r <:+ s)
    (hso : ∀ s a r, sep s = .ok a r → r <:+ s)
    (hse : ∀ s k r, sep s = .err k r → r <:+ s) :
    ∀ (n : Nat) (s : Str),
      (∀ a r, sepTailN p sep n s = .ok a r → r <:+ s) ∧
      (∀ k r, sepTailN p sep n s = .err k r → r <:+ s) := by
  intro n
  induction n with
  | zero =>
    intro s
    constructor
    · intro a r h
      cases h
      exact List.suffix_refl s
    · intro k r h
      cases h
  | succ m ih =>
    intro s
    constructor
    · intro a r h
      unfold sepTailN pseq pmap at h
      cases hs : sep s with
      | ok u s1 =>
        simp only [hs] at h
        cases hp2 : p s1 with
        | ok b s2 =>
          simp only [hp2] at h
          cases ht : sepTailN p sep m s2 with
          | ok l r2 =>
            simp only [ht] at h
            cases h
            exact ((ih s2).1 _ _ ht).trans ((hpo _ _ _ hp2).trans (hso _ _ _ hs))
          | err k2 r2 => simp only [ht] at h; cases h
          | panic => simp only [ht] at h; cases h
        | err k2 r2 => simp only [hp2] at h; cases h
        | panic => simp only [hp2] at h; cases h
      | err k2 r2 => simp only [hs] at h; cases h
      | panic => simp only [hs] at h; cases h
    · intro k r h
      unfold sepTailN pseq pmap at h
      cases hs : sep s with
      | ok u s1 =>
        simp only [hs] at h
        cases hp2 : p s1 with
        | ok b s2 =>
          simp only [hp2] at h
          cases ht : sepTailN p sep m s2 with
          | ok l r2 => simp only [ht] at h; cases h
          | err k2 r2 =>
            simp only [ht] at h
            cases h
            exact ((ih s2).2 _ _ ht).trans ((hpo _ _ _ hp2).trans (hso _ _ _ hs))
          | panic => simp only [ht] at h; cases h
        | err k2 r2 =>
          simp only [hp2] at h
          cases h
          exact (hpe _ _ _ hp2).trans (hso _ _ _ hs)
        | panic => simp only [hp2] at h; cases h
      | err k2 r2 =>
        simp only [hs] at h
        cases h
        exact hse _ _ _ hs
      | panic => simp only [hs] at h; cases h

theorem separatedN_sfx {α : Type} {p : Parser α} {sep : Parser Unit}
    (hpo : ∀ s a r, p s = .ok a r → r <:+ s)
    (hpe : ∀ s k r, p s = .err k r → r <:+ s)
    (hso : ∀ s a r, sep s = .ok a r → r <:+ s)
    (hse : ∀ s k r, sep s = .err k r → r <:+ s) :
    ∀ (n : Nat) (s : Str),
      (∀ a r, separatedN p sep n s = .ok a r → r <:+ s) ∧
      (∀ k r, separatedN p sep n s = .err k r → r <:+ s) := by
  intro n s
  cases n with
  | zero =>
    constructor
    · intro a r h
      cases h
      exact List.suffix_refl s
    · intro k r h
      cases h
  | succ m =>
    constructor
    · intro a r h
      unfold separatedN pseq pmap at h
      cases hp2 : p s with
      | ok b s1 =>
        simp only [hp2] at h
        cases ht : sepTailN p sep m s1 with
        | ok l r2 =>
          simp only [ht] at h
          cases h
          exact ((sepTailN_sfx hpo hpe hso hse m s1).1 _ _ ht).trans (hpo _ _ _ hp2)
        | err k2 r2 => simp only [ht] at h; cases h
        | panic => simp only [ht] at h; cases h
      | err k2 r2 => simp only [hp2] at h; cases h
      | panic => simp only [hp2] at h; cases h
    · intro k r h
      unfold separatedN pseq pmap at h
      cases hp2 : p s with
      | ok b s1 =>
        simp only [hp2] at h
        cases ht : sepTailN p sep m s1 with
        | ok l r2 => simp only [ht] at h; cases h
        | err k2 r2 =>
          simp only [ht] at h
          cases h
          exact ((sepTailN_sfx hpo hpe hso hse m s1).2 _ _ ht).trans (hpo _ _ _ hp2)
        | panic => simp only [ht] at h; cases h
      | err k2 r2 =>
        simp only [hp2] at h
        cases h
        exact hpe _ _ _ hp2
      | panic => simp only [hp2] at h; cases h

theorem parse_ip_err_sfx : ∀ (s : Str) (k : ErrKind) (r : Str),
    parse_ip s = .err k r → r <:+ s := by
  intro s k r h
  have hsep := @separatedN_sfx Nat (digitsTo 255) (lit ['.'])
    (fun s2 a r2 ha => digitsTo_ok_sfx ha)
    (fun s2 k2 r2 he => (digitsTo_err_eq he) ▸ List.suffix_refl s2)
    (fun s2 a r2 ha => lit_ok_sfx ha)
    (fun s2 k2 r2 he => (lit_err_eq he) ▸ List.suffix_refl s2)
    4 s
  unfold parse_ip at h
  cases hs : separatedN (digitsTo 255) (lit ['.']) 4 s with
  | ok ds r2 =>
    simp only [hs] at h
    cases ds with
    | nil => cases h
    | cons d1 t1 =>
      cases t1 with
      | nil => cases h
      | cons d2 t2 =>
        cases t2 with
        | nil => cases h
        | cons d3 t3 =>
          cases t3 with
          | nil => cases h
          | cons d4 t4 =>
            cases t4 with
            | nil =>
              unfold pmap space0 at h
              cases h
            | cons d5 t5 => cases h
  | err k2 r2 =>
    simp only [hs] at h
    cases h
    exact hsep.2 _ _ hs
  | panic => simp only [hs] at h; cases h

theorem separatedN4_first_err {α : Type} {p : Parser α} {sep : Parser Unit}
    {s r : Str} {k : ErrKind} (hp : p s = .err k r) :
    separatedN p sep 4 s = .err k r := by
  show pseq p _ s = _
  unfold pseq
  simp only [hp]

theorem parse_nginx_log_ip_err {s r : Str} {k : ErrKind}
    (h : parse_ip s = .err k r) : parse_nginx_log s = .err k := by
  unfold parse_nginx_log pseq
  simp only [h]

theorem ipJoin_nil (tail : Str) : ipJoin [] tail = tail := rfl

theorem ipJoin_cons (g : Str) (pre : List Str) (tail : Str) :
    ipJoin (g :: pre) tail = g ++ '.' :: ipJoin pre tail := rfl

theorem sepTailN_ip_err : ∀ (pre : List Str) (m : Nat) (tail : Str) (k : ErrKind),
    pre.length < m →
    (∀ g ∈ pre, g ≠ [] ∧ (∀ x ∈ g, isDigitC x = true) ∧ strToNat g ≤ 255) →
    digitsTo 255 tail = .err k tail →
    sepTailN (digitsTo 255) (lit ['.']) m ('.' :: ipJoin pre tail) = .err k tail := by
  intro pre
  induction pre with
  | nil =>
    intro m tail k hm hgs htail
    cases m with
    | zero => omega
    | succ m' =>
      rw [ipJoin_nil]
      unfold sepTailN pseq pmap
      simp only [lit_single_eq, htail]
  | cons g pre' ih =>
    intro m tail k hm hgs htail
    cases m with
    | zero => omega
    | succ m' =>
      rw [ipJoin_cons]
      have hg := hgs g (by simp)
      have hd : digitsTo 255 (g ++ '.' :: ipJoin pre' tail) =
          .ok (strToNat g) ('.' :: ipJoin pre' tail) :=
        digitsTo_eval hg.1 hg.2.1 (by show isDigitC '.' = false; decide) hg.2.2
      have hlen' : pre'.length < m' := by
        simp only [List.length_cons] at hm
        omega
      have hrec := ih m' tail k hlen' (fun g2 hg2 => hgs g2 (by simp [hg2])) htail
      unfold sepTailN pseq pmap
      simp only [lit_single_eq, hd, hrec]

theorem separatedN_ip_err (pre : List Str) (tail : Str) (k : ErrKind)
    (hpre : ∀ g ∈ pre, g ≠ [] ∧ (∀ x ∈ g, isDigitC x = true) ∧ strToNat g ≤ 255)
    (hlen : pre.length ≤ 3) (htail : digitsTo 255 tail = .err k tail) :
    separatedN (digitsTo 255) (lit ['.']) 4 (ipJoin pre tail) = .err k tail := by
  cases pre with
  | nil =>
    rw [ipJoin_nil]
    exact separatedN4_first_err htail
  | cons g pre' =>
    rw [ipJoin_cons]
    have hg := hpre g (by simp)
    have hd : digitsTo 255 (g ++ '.' :: ipJoin pre' tail) =
        .ok (strToNat g) ('.' :: ipJoin pre' tail) :=
      digitsTo_eval hg.1 hg.2.1 (by show isDigitC '.' = false; decide) hg.2.2
    have hlen' : pre'.length < 3 := by
      simp only [List.length_cons] at hlen
      omega
    have hrec := sepTailN_ip_err pre' 3 tail k hlen'
      (fun g2 hg2 => hpre g2 (by simp [hg2])) htail
    show (pseq (digitsTo 255) _) (g ++ '.' :: ipJoin pre' tail) = _
    unfold pseq pmap
    simp only [hd, hrec]

theorem parse_ip_bad_octet (pre : List Str) (tail : Str) (k : ErrKind)
    (hpre : ∀ g ∈ pre, g ≠ [] ∧ (∀ x ∈ g, isDigitC x = true) ∧ strToNat g ≤ 255)
    (hlen : pre.length ≤ 3) (htail : digitsTo 255 tail = .err k tail) :
    parse_ip (ipJoin pre tail) = .err k tail := by
  have hs := separatedN_ip_err pre tail k hpre hlen htail
  unfold parse_ip
  rw [hs]

theorem palt_nil {α : Type} (s : Str) : palt ([] : List (Parser α)) s = .err .tok s := rfl

theorem palt_single {α : Type} (p : Parser α) : palt [p] = p := rfl

theorem palt_cons2 {α : Type} (p q : Parser α) (ps : List (Parser α)) (s : Str) :
    palt (p :: q :: ps) s =
      match p s with
      | .ok a r => .ok a r
      | .err _ _ => palt (q :: ps) s
      | .panic => .panic := rfl

theorem lit_err_kind {l s r : Str} {k : ErrKind} (h : lit l s = .err k r) :
    k = .tok := by
  unfold lit at h
  cases hlc : litCore l s with
  | some t => rw [hlc] at h; cases h
  | none => rw [hlc] at h; cases h; rfl

theorem litTok_ok_eq {l s a r : Str} (h : litTok l s = .ok a r) : a = l := by
  unfold litTok pmap at h
  cases hl : lit l s with
  | ok u t => simp only [hl] at h; cases h; rfl
  | err k t => simp only [hl] at h; cases h
  | panic => simp only [hl] at h; cases h

theorem litTok_err_kind {l s r : Str} {k : ErrKind} (h : litTok l s = .err k r) :
    k = .tok := by
  unfold litTok pmap at h
  cases hl : lit l s with
  | ok u t => simp only [hl] at h; cases h
  | err k2 t =>
    simp only [hl] at h
    cases h
    exact lit_err_kind hl
  | panic => simp only [hl] at h; cases h

theorem litTok_no_panic (l s : Str) : litTok l s ≠ .panic := by
  intro h
  unfold litTok pmap at h
  cases hl : lit l s with
  | ok u t => simp only [hl] at h; cases h
  | err k t => simp only [hl] at h; cases h
  | panic => exact lit_no_panic l s hl

theorem palt_litTok_mem : ∀ (ls : List Str) (s a r : Str),
    palt (ls.map litTok) s = .ok a r → a ∈ ls := by
  intro ls
  induction ls with
  | nil =>
    intro s a r h
    rw [List.map_nil, palt_nil] at h
    cases h
  | cons l ls' ih =>
    intro s a r h
    rw [List.map_cons] at h
    cases ls' with
    | nil =>
      rw [List.map_nil, palt_single] at h
      rw [litTok_ok_eq h]
      simp
    | cons l2 ls'' =>
      rw [List.map_cons, palt_cons2] at h
      cases hl : litTok l s with
      | ok u t =>
        simp only [hl] at h
        cases h
        rw [litTok_ok_eq hl]
        simp
      | err k t =>
        simp only [hl] at h
        rw [← List.map_cons] at h
        exact List.mem_cons_of_mem l (ih s a r h)
      | panic => simp only [hl] at h; cases h

theorem palt_litTok_err_kind : ∀ (ls : List Str) (s r : Str) (k : ErrKind),
    palt (ls.map litTok) s = .err k r → k = .tok := by
  intro ls
  induction ls with
  | nil =>
    intro s r k h
    rw [List.map_nil, palt_nil] at h
    cases h
    rfl
  | cons l ls' ih =>
    intro s r k h
    rw [List.map_cons] at h
    cases ls' with
    | nil =>
      rw [List.map_nil, palt_single] at h
      exact litTok_err_kind h
    | cons l2 ls'' =>
      rw [List.map_cons, palt_cons2] at h
      cases hl : litTok l s with
      | ok u t => simp only [hl] at h; cases h
      | err k2 t =>
        simp only [hl] at h
        rw [← List.map_cons] at h
        exact ih s r k h
      | panic => simp only [hl] at h; cases h

theorem palt_litTok_no_panic : ∀ (ls : List Str) (s : Str),
    palt (ls.map litTok) s ≠ .panic := by
  intro ls
  induction ls with
  | nil =>
    intro s h
    rw [List.map_nil, palt_nil] at h
    cases h
  | cons l ls' ih =>
    intro s h
    rw [List.map_cons] at h
    cases ls' with
    | nil =>
      rw [List.map_nil, palt_single] at h
      exact litTok_no_panic l s h
    | cons l2 ls'' =>
      rw [List.map_cons, palt_cons2] at h
      cases hl : litTok l s with
      | ok u t => simp only [hl] at h; cases h
      | err k t =>
        simp only [hl] at h
        rw [← List.map_cons] at h
        exact ih s h
      | panic => exact litTok_no_panic l s hl

theorem parseToP_litTok_err_kind {β : Type} (ls : List Str) (f : Str → Option β)
    (hf : ∀ t ∈ ls, (f t).isSome = true) :
    ∀ (s r : Str) (k : ErrKind),
      parseToP (palt (ls.map litTok)) f s = .err k r → k = .tok := by
  intro s r k h
  unfold parseToP at h
  cases ha : palt (ls.map litTok) s with
  | ok a t =>
    simp only [ha] at h
    cases hfa : f a with
    | some b => simp only [hfa] at h; cases h
    | none =>
      have hsome : (f a).isSome = true := hf a (palt_litTok_mem ls s a t ha)
      rw [hfa] at hsome
      cases hsome
  | err k2 t =>
    rw [ha] at h
    cases h
    exact palt_litTok_err_kind ls s r k ha
  | panic => exact absurd ha (palt_litTok_no_panic ls s)

theorem pseq_space0_err_kind {β : Type} (p : Parser β)
    (hp : ∀ (s r : Str) (k : ErrKind), p s = .err k r → k = .tok) :
    ∀ (s r : Str) (k : ErrKind),
      (pseq p (fun v => pmap space0 (fun _ => v))) s = .err k r → k = .tok := by
  intro s r k h
  unfold pseq at h
  cases hps : p s with
  | ok b t =>
    simp only [hps] at h
    unfold pmap space0 at h
    cases h
  | err k2 t =>
    simp only [hps] at h
    cases h
    exact hp s r k hps
  | panic => simp only [hps] at h; cases h

theorem parse_http_method_err_kind : ∀ (s r : Str) (k : ErrKind),
    parse_http_method s = .err k r → k = .tok :=
  pseq_space0_err_kind _ (parseToP_litTok_err_kind
    ["GET".toList, "POST".toList, "PUT".toList, "DELETE".toList, "HEAD".toList,
      "OPTIONS".toList, "CONNECT".toList, "TRACE".toList, "PATCH".toList]
    methodOfToken (by decide))

theorem parse_http_version_err_kind : ∀ (s r : Str) (k : ErrKind),
    parse_http_version s = .err k r → k = .tok :=
  pseq_space0_err_kind _ (parseToP_litTok_err_kind
    ["HTTP/1.0".toList, "HTTP/1.1".toList, "HTTP/2.0".toList, "HTTP/3.0".toList]
    versionOfToken (by decide))

/-- C1, counterexample: on the literal `1.05` the code parses the fractional
run `05` to the `i64` value `5` and re-renders it, so `parse_num` yields the
float value 1.5 — not the value 1.05 of the concatenated text with its leading
zero, contradicting the claim that the fractional run is taken as written. -/
theorem parse_num_leading_zero_frac_cex :
    parse_num ("1.05".toList) = .ok (.float ⟨15, 1⟩) [] ∧
    ¬ DecRat.equiv ⟨15, 1⟩ (specConcatVal ("1".toList) ("05".toList)) := by
  constructor
  · rfl
  · decide

/-- C1, amended: for an `int.frac` literal whose runs both fit in an `i64` and
whose fractional run has no leading zeros, `parse_num` returns the Float
variant whose value is exactly the 64-bit floating-point parse of the two
digit runs textually concatenated with a `.` (modelled exactly as a decimal),
with the sign applied afterwards. (With a leading zero in the fractional run
the code instead drops the zeros, as the counterexample shows; runs beyond
`i64::MAX` make the parse fail.) -/
theorem parse_num_float_concat_amended {I F : Str} (hI1 : I ≠ [])
    (hI2 : ∀ c ∈ I, isDigitC c = true) (hI3 : strToNat I ≤ i64Max)
    (hF1 : F ≠ []) (hF2 : ∀ c ∈ F, isDigitC c = true) (hF3 : strToNat F ≤ i64Max)
    (hF4 : noLeadingZeros F) :
    parse_num (I ++ '.' :: F) = .ok (.float (specConcatVal I F)) [] ∧
    parse_num ('-' :: (I ++ '.' :: F)) =
      .ok (.float ⟨-(specConcatVal I F).mant, (specConcatVal I F).exp⟩) [] := by
  have hnum := parse_num_int_frac hI1 hI2 hI3 hF1 hF2 hF3
  have hnd : numDigits (strToNat F) = F.length := numDigits_strToNat hF1 hF2 hF4
  constructor
  · rw [hnum.1, hnd]
    rfl
  · rw [hnum.2, hnd]
    rfl

/-- Witness for the amended C1 at the spec's own example `123.456`. -/
theorem parse_num_float_concat_amended_wit :
    parse_num ("123.456".toList) =
      .ok (.float (specConcatVal ("123".toList) ("456".toList))) [] ∧
    parse_num ('-' :: "123.456".toList) =
      .ok (.float ⟨-(specConcatVal ("123".toList) ("456".toList)).mant,
        (specConcatVal ("123".toList) ("456".toList)).exp⟩) [] :=
  @parse_num_float_concat_amended ("123".toList) ("456".toList) (by decide)
    (by decide) (by decide) (by decide) (by decide) (by decide) (by decide)

/-- C2: the claim (and the spec) say a malformed or out-of-range timestamp
interior fails the parse through the normal failure channel; the code instead
calls `.unwrap()` on the chrono result and panics. Evaluated at the failing
inputs: a malformed interior, an out-of-range day, and a full log line whose
timestamp field is malformed — each makes `parse_datetime` (and the whole
`parse_nginx_log`) terminate abnormally rather than return an error. -/
theorem parse_datetime_malformed_panics :
    parse_datetime ("[bad]".toList) = .panic ∧
    parse_datetime ("[32/May/2015:08:05:32 +0000]".toList) = .panic ∧
    parse_nginx_log
      ("93.180.71.3 - - [bad] \"GET / HTTP/1.1\" 200 0 \"-\" \"x\"".toList) =
      .panic :=
  ⟨rfl, rfl, rfl⟩

/-- C3, counterexample: `parse_num` on `-a` fails after the `-` was already
consumed — the failure cursor is `a`, not the original `-a`, so a failing
primitive does not leave the cursor unchanged. -/
theorem parse_num_cursor_moves_cex :
    parse_num ("-a".toList) = .err .tok ("a".toList) ∧
    ("a".toList : Str) ≠ ("-a".toList) := by
  constructor
  · rfl
  · decide

/-- C3, amended: on failure the cursor is left at the failure point, which is
a suffix of (but not necessarily equal to) the input: composite primitives
such as `parse_num` and `parse_ip` may leave it advanced past a consumed
prefix, while the atomic primitives (`digit1`, literals) do leave it exactly
where it was; restoring across failed attempts is done by the enclosing
combinators (`opt`, `alt`) through checkpoints. -/
theorem failure_cursor_suffix_amended (s r1 r2 r3 r4 l : Str)
    (k1 k2 k3 k4 : ErrKind) :
    (parse_num s = .err k1 r1 → r1 <:+ s) ∧
    (parse_ip s = .err k2 r2 → r2 <:+ s) ∧
    (digit1 s = .err k3 r3 → r3 = s) ∧
    (lit l s = .err k4 r4 → r4 = s) :=
  ⟨parse_num_err_sfx s k1 r1, parse_ip_err_sfx s k2 r2,
    fun h => digit1_err_eq h, fun h => lit_err_eq h⟩

/-- Witness for the amended C3: at `-a` the `parse_num` failure cursor `a` is
a (strict) suffix of the input, and at `999.1.1.1` the `parse_ip` conversion
failure leaves the cursor at the octet start, a suffix of the input. -/
theorem failure_cursor_suffix_amended_wit :
    (("a".toList : Str) <:+ "-a".toList) ∧
    (("999.1.1.1".toList : Str) <:+ "999.1.1.1".toList) := by
  constructor
  · exact (failure_cursor_suffix_amended ("-a".toList) ("a".toList) [] [] [] []
      .tok .tok .tok .tok).1 (by rfl)
  · exact (failure_cursor_suffix_amended ("999.1.1.1".toList) []
      ("999.1.1.1".toList) [] [] [] .tok .conv .tok .tok).2.1 (by rfl)

/-- C4: the spec's literal sample line parses to exactly the claimed record;
`1431849932` is 2015-05-17T08:05:32Z as Unix seconds, as the second conjunct
pins against the model's own civil-date arithmetic. -/
theorem nginx_sample_line_parses :
    parse_nginx_log
      ("93.180.71.3 - - [17/May/2015:08:05:32 +0000] \"GET /downloads/product_1 HTTP/1.1\" 304 0 \"-\" \"Debian APT-HTTP/1.3 (0.8.16~exp12ubuntu10.21)\"".toList) =
      .ok ⟨.v4 93 180 71 3, 1431849932, .get, "/downloads/product_1".toList,
        .http1_1, 304, 0, "-".toList,
        "Debian APT-HTTP/1.3 (0.8.16~exp12ubuntu10.21)".toList⟩ ∧
    (1431849932 : Int) = daysFromCivil 2015 5 17 * 86400 + (8 * 3600 + 5 * 60 + 32) :=
  ⟨rfl, rfl⟩

/-- C5: `[]` parses to the empty Array through `parse_array` and
`parse_value`, while `{}` is rejected by `parse_object` (the pair repetition
requires at least one pair, so the inner `parse_string` fails at `}`) and by
`parse_value` / `parse_json` as a whole. -/
theorem empty_array_vs_empty_object :
    parse_array ("[]".toList) = .ok [] [] ∧
    parse_value ("[]".toList) = .ok (.arr []) [] ∧
    parse_object ("\x7b\x7d".toList) = .err .tok ("\x7d".toList) ∧
    parse_value ("\x7b\x7d".toList) = .err .tok ("\x7d".toList) ∧
    parse_json ("\x7b\x7d".toList) = .err .tok :=
  ⟨rfl, rfl, rfl, rfl, rfl⟩

/-- C6, counterexample: `2^63 = 9223372036854775808` is a non-negative
integer, but `parse_num` on its decimal text fails with a conversion error
(`str::parse::<i64>` overflows) instead of yielding the claimed Int variant. -/
theorem parse_num_i64_overflow_cex :
    parse_num ("9223372036854775808".toList) =
      .err .conv ("9223372036854775808".toList) ∧
    (PResult.err .conv ("9223372036854775808".toList) : PResult Num) ≠
      .ok (.int 9223372036854775808) [] := by
  constructor
  · rfl
  · decide

/-- C6, amended: for every non-negative integer that fits in an `i64`
(value ≤ 2^63 − 1), parsing its decimal digit run yields the Int variant with
exactly that value, and prefixing `-` yields the negated value. -/
theorem parse_num_int_exact_amended {ds : Str} (h1 : ds ≠ [])
    (h2 : ∀ c ∈ ds, isDigitC c = true) (h3 : strToNat ds ≤ i64Max) :
    parse_num ds = .ok (.int (strToNat ds)) [] ∧
    parse_num ('-' :: ds) = .ok (.int (-(strToNat ds : Int))) [] :=
  parse_num_digits h1 h2 h3

/-- Witness for the amended C6 at the repo's own test values `123`, `-123`. -/
theorem parse_num_int_exact_amended_wit :
    parse_num ("123".toList) = .ok (.int (strToNat ("123".toList))) [] ∧
    parse_num ('-' :: "123".toList) =
      .ok (.int (-(strToNat ("123".toList) : Int))) [] :=
  @parse_num_int_exact_amended ("123".toList) (by decide) (by decide) (by decide)

/-- C7, counterexample: on the log line with verb `FETCH` the parse does fail
and produces no record, but the failure kind is the token-matching kind
(`alt` over the nine literals fails before any conversion runs), not the
claimed conversion kind; and the claim's universal failure assertion is also
false, because the alternation commits to a matching prefix: the request
`"GETX HTTP/1.1"` has the verb `GETX`, outside the 9 fixed tokens, yet the
line parses successfully into a record (method `GET`, path `X`). -/
theorem unknown_method_error_kind_cex :
    parse_nginx_log
      ("93.180.71.3 - - [17/May/2015:08:05:32 +0000] \"FETCH /downloads/product_1 HTTP/1.1\" 304 0 \"-\" \"UA\"".toList) =
      .err .tok ∧
    ErrKind.tok ≠ ErrKind.conv ∧
    parse_nginx_log
      ("93.180.71.3 - - [17/May/2015:08:05:32 +0000] \"GETX HTTP/1.1\" 304 0 \"-\" \"UA\"".toList) =
      .ok ⟨.v4 93 180 71 3, 1431849932, .get, "X".toList, .http1_1, 304, 0,
        "-".toList, "UA".toList⟩ := by
  refine ⟨rfl, by decide, rfl⟩

/-- C7, amended: when the request field's verb or protocol token fails to
match — as on the claim's examples `FETCH` and `HTTP/9.9` — the parse fails
with a token-matching failure and no record is produced; and universally, the
method and version parsers can only fail with the token-matching kind, never
with the (distinct) conversion kind: every literal the alternation can yield
converts successfully, so the enum-conversion failure path is unreachable.
The alternation commits to a matching prefix, so a verb that merely extends a
fixed token is not rejected (the request `"GETX HTTP/1.1"` parses as `GET`
with path `X`, as the counterexample records); only a verb or version at which
the literal alternation itself fails aborts the line. -/
theorem unknown_tokens_token_failure_amended :
    (∀ (s r : Str) (k : ErrKind), parse_http_method s = .err k r → k = .tok) ∧
    (∀ (s r : Str) (k : ErrKind), parse_http_version s = .err k r → k = .tok) ∧
    parse_http_method ("FETCH /downloads/product_1 HTTP/1.1".toList) =
      .err .tok ("FETCH /downloads/product_1 HTTP/1.1".toList) ∧
    parse_http_version ("HTTP/9.9".toList) = .err .tok ("HTTP/9.9".toList) ∧
    parse_nginx_log
      ("93.180.71.3 - - [17/May/2015:08:05:32 +0000] \"FETCH /downloads/product_1 HTTP/1.1\" 304 0 \"-\" \"UA\"".toList) =
      .err .tok ∧
    parse_nginx_log
      ("93.180.71.3 - - [17/May/2015:08:05:32 +0000] \"GET /downloads/product_1 HTTP/9.9\" 304 0 \"-\" \"UA\"".toList) =
      .err .tok :=
  ⟨parse_http_method_err_kind, parse_http_version_err_kind, rfl, rfl, rfl, rfl⟩

/-- Witness for the amended C7: the error-kind universals applied at the
concrete failing inputs `FETCH ...` and `HTTP/9.9`. -/
theorem unknown_tokens_token_failure_amended_wit :
    ErrKind.tok = ErrKind.tok ∧ ErrKind.tok = ErrKind.tok :=
  ⟨unknown_tokens_token_failure_amended.1
      ("FETCH /downloads/product_1 HTTP/1.1".toList)
      ("FETCH /downloads/product_1 HTTP/1.1".toList) .tok (by rfl),
    unknown_tokens_token_failure_amended.2.1
      ("HTTP/9.9".toList) ("HTTP/9.9".toList) .tok (by rfl)⟩

/-- C8: an IPv4 field whose octet group at any of the four positions is
out-of-range (decimal value > 255) or non-numeric makes `parse_ip` fail — the
out-of-range group with the `u8` conversion error and the cursor reset to
that group's start, the non-numeric group with the `digit1` token failure —
and `parse_nginx_log` then fails identically, producing no address and no
record. `pre` is the list of up to three well-formed octet groups preceding
the bad one, placing the bad group at any of the four positions; `rest` is
whatever follows the bad digit run (its head not a digit). -/
theorem ip_octet_out_of_range_fails (pre : List Str) (ds rest cs : Str) (c : Char)
    (hpre : ∀ g ∈ pre, g ≠ [] ∧ (∀ x ∈ g, isDigitC x = true) ∧ strToNat g ≤ 255)
    (hlen : pre.length ≤ 3)
    (h1 : ds ≠ []) (h2 : ∀ x ∈ ds, isDigitC x = true) (h3 : 255 < strToNat ds)
    (hrest : headNotP isDigitC rest) (h4 : isDigitC c = false) :
    (parse_ip (ipJoin pre (ds ++ rest)) = .err .conv (ds ++ rest) ∧
      parse_nginx_log (ipJoin pre (ds ++ rest)) = .err .conv) ∧
    (parse_ip (ipJoin pre (c :: cs)) = .err .tok (c :: cs) ∧
      parse_nginx_log (ipJoin pre (c :: cs)) = .err .tok) := by
  have hov : digitsTo 255 (ds ++ rest) = .err .conv (ds ++ rest) :=
    digitsTo_overflow h1 h2 hrest h3
  have hnd : digitsTo 255 (c :: cs) = .err .tok (c :: cs) := by
    unfold digitsTo parseToP
    simp only [digit1_nondigit h4]
  have hip1 := parse_ip_bad_octet pre (ds ++ rest) .conv hpre hlen hov
  have hip2 := parse_ip_bad_octet pre (c :: cs) .tok hpre hlen hnd
  exact ⟨⟨hip1, parse_nginx_log_ip_err hip1⟩, ⟨hip2, parse_nginx_log_ip_err hip2⟩⟩

/-- Witness for C8 with the bad octet in the second position: `1.999.1.1`
(out of range) and `1.x.1.1` (non-numeric). -/
theorem ip_octet_out_of_range_fails_wit :
    (parse_ip ("1.999.1.1 rest".toList) = .err .conv ("999.1.1 rest".toList) ∧
      parse_nginx_log ("1.999.1.1 rest".toList) = .err .conv) ∧
    (parse_ip ("1.x.1.1 rest".toList) = .err .tok ("x.1.1 rest".toList) ∧
      parse_nginx_log ("1.x.1.1 rest".toList) = .err .tok) :=
  ip_octet_out_of_range_fails [("1".toList)] ("999".toList) (".1.1 rest".toList)
    (".1.1 rest".toList) 'x' (by decide) (by decide) (by decide) (by decide)
    (by decide) (by decide) (by decide)

/-- C9: the object map is built by inserting the parsed pairs in textual
order, so a key maps to its last occurrence (first conjunct: lookup in the
accumulated map equals the first hit in the reversed pair list), keys of the
result are unique (second conjunct), and a duplicate-key document parses
successfully with last-write-wins (third conjunct). -/
theorem object_duplicate_key_last_write_wins (ps : List (Str × JsonValue))
    (k : Str) :
    lookupKV (buildObj ps) k = lookupKV ps.reverse k ∧
    ((buildObj ps).map Prod.fst).Nodup ∧
    parse_json ("\x7b\"a\": 1, \"a\": 2\x7d".toList) =
      .ok (.obj [("a".toList, .number (.int 2))]) :=
  ⟨lookup_buildObj ps k, nodup_buildObj ps, rfl⟩

/-- C10: neither entry point requires the input to be consumed: `1abc`
parses as the JSON value 1 with `abc` left over and `parse_json` succeeds
ignoring it, and the nginx sample line with trailing text after the
user-agent field still yields the full record. -/
theorem trailing_text_ignored :
    parse_value ("1abc".toList) = .ok (.number (.int 1)) ("abc".toList) ∧
    parse_json ("1abc".toList) = .ok (.number (.int 1)) ∧
    parse_nginx_log
      ("93.180.71.3 - - [17/May/2015:08:05:32 +0000] \"GET /downloads/product_1 HTTP/1.1\" 304 0 \"-\" \"Debian APT-HTTP/1.3 (0.8.16~exp12ubuntu10.21)\" trailing".toList) =
      .ok ⟨.v4 93 180 71 3, 1431849932, .get, "/downloads/product_1".toList,
        .http1_1, 304, 0, "-".toList,
        "Debian APT-HTTP/1.3 (0.8.16~exp12ubuntu10.21)".toList⟩ :=
  ⟨rfl, rfl, rfl⟩

end GrammarRs
